import Mathlib

/-!
Verification of the avmnif-rs term layer: a shallow embedding of
`src/term.rs`, `src/tagged.rs` and `src/testing/mocks.rs` (the AtomVM
tagged-term codec, the high-level value algebra, the tagged-map record
codec and the mock atom directory), together with proofs of the spec's
testable properties.

Machine integers are modelled as `Nat`/`Int` with explicit reduction
modulo `2^32`: the reference layout is the 32-bit one (`usize` = `u32`),
which is the layout the source's hard-coded small-integer bounds
(`-(1 << 27) .. (1 << 27) - 1`) correspond to.  Heap memory reachable
from a boxed or list word is modelled as an explicit read-only map from
byte addresses to word/byte contents.
-/

set_option maxHeartbeats 1000000

/-- Number of values of a 32-bit machine word: `usize` on the reference layout. -/
def USIZE_MOD : Nat := 2 ^ 32

/-- Rust `AtomIndex(pub u32)` from term.rs. -/
abbrev AtomIndex := Nat

/-- The clean functional ADT for AtomVM terms (`TermValue` in term.rs).
The `f64` payload of `Float` is kept as its raw binary64 bit pattern (a
`Nat`); structural equality compares two payloads with IEEE semantics
(see `f64_beq`), matching the derived `PartialEq`. -/
inductive TermValue : Type where
  | smallInt : Int → TermValue
  | atom : AtomIndex → TermValue
  | nil : TermValue
  | pid : Nat → TermValue
  | port : Nat → TermValue
  | reference : Nat → TermValue
  | tuple : List TermValue → TermValue
  | list : TermValue → TermValue → TermValue
  | map : List (TermValue × TermValue) → TermValue
  | binary : List Nat → TermValue
  | function : Nat → Nat → Nat → TermValue
  | resource : String → Nat → TermValue
  | float : Nat → TermValue
  | invalid : TermValue

/-- Predicate on a binary64 bit pattern: exponent field (bits 52..62)
all ones and mantissa (bits 0..51) nonzero, i.e. the pattern is a NaN. -/
def f64_is_nan (bits : Nat) : Bool :=
  decide ((bits >>> 52) % 2048 = 2047) && decide (bits % 2 ^ 52 ≠ 0)

/-- Equality of `f64` values given as binary64 bit patterns, with the
IEEE semantics of Rust's `f64` `PartialEq`: a NaN compares unequal to
everything (itself included), positive and negative zero compare equal
(magnitude bits 0..62 all zero on both sides), and every other value is
equal exactly to its own bit pattern. -/
def f64_beq (a b : Nat) : Bool :=
  if f64_is_nan a || f64_is_nan b then false
  else if a % 2 ^ 63 = 0 && b % 2 ^ 63 = 0 then true
  else a == b

mutual

/-- Structural equality on `TermValue`, the semantics of the derived
`PartialEq` in term.rs; float payloads are compared as IEEE `f64`
values via `f64_beq`, so it is not reflexive at NaN payloads. -/
def TermValue.beq : TermValue → TermValue → Bool
  | .smallInt a, .smallInt b => a == b
  | .atom a, .atom b => a == b
  | .nil, .nil => true
  | .pid a, .pid b => a == b
  | .port a, .port b => a == b
  | .reference a, .reference b => a == b
  | .tuple xs, .tuple ys => TermValue.beq_list xs ys
  | .list h t, .list h2 t2 => TermValue.beq h h2 && TermValue.beq t t2
  | .map ps, .map qs => TermValue.beq_pairs ps qs
  | .binary a, .binary b => a == b
  | .function m f a, .function m2 f2 a2 => m == m2 && f == f2 && a == a2
  | .resource s p, .resource s2 p2 => s == s2 && p == p2
  | .float a, .float b => f64_beq a b
  | .invalid, .invalid => true
  | _, _ => false
termination_by v _ => sizeOf v

/-- Elementwise structural equality on lists of terms. -/
def TermValue.beq_list : List TermValue → List TermValue → Bool
  | [], [] => true
  | x :: xs, y :: ys => TermValue.beq x y && TermValue.beq_list xs ys
  | _, _ => false
termination_by v _ => sizeOf v

/-- Elementwise structural equality on lists of key/value pairs. -/
def TermValue.beq_pairs : List (TermValue × TermValue) → List (TermValue × TermValue) → Bool
  | [], [] => true
  | (k, v) :: xs, (k2, v2) :: ys =>
    TermValue.beq k k2 && TermValue.beq v v2 && TermValue.beq_pairs xs ys
  | _, _ => false
termination_by v _ => sizeOf v

end

/-- Rust `NifError` from term.rs. -/
inductive NifError : Type where
  | badArg
  | badArity
  | outOfMemory
  | systemLimit
  | invalidTerm
  | other : String → NifError
  deriving DecidableEq, Repr

/-- Rust `NifResult<T>` from term.rs. -/
abbrev NifResult (α : Type) := Except NifError α

/-- Read-only view of the heap memory a term word may point into:
`word a` is the machine word stored at byte address `a`, `byte a` the
raw byte stored there (used only for binary payloads). -/
structure Mem : Type where
  word : Nat → Nat
  byte : Nat → Nat

/-- Placeholder for the AtomVM `Heap` handle (term.rs models it as an
opaque FFI struct; no encode path implemented in the source ever reads
or writes through it). -/
structure Heap : Type where
  dummy : Unit

/-- The low-level term type discriminator (`TermType` in term.rs). -/
inductive TermType : Type where
  | smallInt | atom | nilT | pidT | portT | referenceT
  | tupleT | listT | mapT | binaryT | functionT | resourceT | floatT
  | invalidT
  deriving DecidableEq, Repr

namespace Term

/-- Rust `TERM_NIL` constant: 0x3B. -/
def TERM_NIL : Nat := 0x3B

/-- Rust `!TERM_PRIMARY_MASK` (bitwise not of 0x3) on the 32-bit layout. -/
def NOT_PRIMARY_MASK : Nat := USIZE_MOD - 0x4

/-- Rust `!0xF` (bitwise not of the 4-bit immediate tag mask) on the 32-bit layout. -/
def NOT_IMMED_MASK : Nat := USIZE_MOD - 0x10

/-- Rust `Term::decode_type` from term.rs: the low-level tag dispatch.
Dereferences of the boxed header word go through `mem`. -/
def decode_type (mem : Mem) (w : Nat) : TermType :=
  if w = TERM_NIL then .nilT
  else
    match w &&& 0x3 with
    | 0x3 =>
      match w &&& 0xF with
      | 0xF => .smallInt
      | 0xB => .atom
      | 0x3 => .pidT
      | 0x7 => .portT
      | _ => .invalidT
    | 0x1 => .listT
    | 0x2 =>
      let boxed_ptr := w &&& NOT_PRIMARY_MASK
      if boxed_ptr = 0 then .invalidT
      else
        match (mem.word boxed_ptr) &&& 0x3F with
        | 0x00 => .tupleT
        | 0x08 => .smallInt
        | 0x10 => .referenceT
        | 0x18 => .functionT
        | 0x20 => .floatT
        | 0x28 => .binaryT
        | 0x30 => .binaryT
        | 0x38 => .binaryT
        | 0x40 => .mapT
        | 0x48 => .resourceT
        | _ => .invalidT
    | _ => .invalidT

/-- Reinterpret a 32-bit machine word as an `i32` (two's complement). -/
def as_i32 (x : Nat) : Int :=
  if x % USIZE_MOD < 2 ^ 31 then ((x % USIZE_MOD : Nat) : Int)
  else ((x % USIZE_MOD : Nat) : Int) - (USIZE_MOD : Int)

/-- Arithmetic shift right on an `i32` value: floor division by `2^k`. -/
def i32_asr (x : Int) (k : Nat) : Int := Int.fdiv x (2 ^ k)

/-- Reinterpret an `i32` as a 32-bit machine word (`value as usize`). -/
def i32_as_usize (v : Int) : Nat := (v % (USIZE_MOD : Int)).toNat

/-- Rust `Term::extract_small_int`: `(self.0 & !0xF) as i32 >> 4`. -/
def extract_small_int (mem : Mem) (w : Nat) : NifResult Int :=
  match decode_type mem w with
  | .smallInt => .ok (i32_asr (as_i32 (w &&& NOT_IMMED_MASK)) 4)
  | _ => .error .badArg

/-- Rust `Term::extract_atom_index`: `(self.0 >> 4) as u32`. -/
def extract_atom_index (mem : Mem) (w : Nat) : NifResult Nat :=
  match decode_type mem w with
  | .atom => .ok (w >>> 4)
  | _ => .error .badArg

/-- Rust `Term::extract_tuple_arity`: header word shifted right by 6. -/
def extract_tuple_arity (mem : Mem) (w : Nat) : NifResult Nat :=
  match decode_type mem w with
  | .tupleT => .ok ((mem.word (w &&& NOT_PRIMARY_MASK)) >>> 6)
  | _ => .error .badArg

/-- Rust `Term::extract_tuple_element`: word at `boxed_ptr.add(1 + index)`
(4-byte words on the 32-bit layout), after a bounds check on the arity. -/
def extract_tuple_element (mem : Mem) (w : Nat) (index : Nat) : NifResult Nat :=
  match extract_tuple_arity mem w with
  | .error e => .error e
  | .ok arity =>
    if index ≥ arity then .error .badArg
    else .ok (mem.word ((w &&& NOT_PRIMARY_MASK) + 4 * (1 + index)))

/-- Rust `Term::extract_list_head`: first word of the cons cell. -/
def extract_list_head (mem : Mem) (w : Nat) : NifResult Nat :=
  match decode_type mem w with
  | .listT => .ok (mem.word (w &&& NOT_PRIMARY_MASK))
  | _ => .error .badArg

/-- Rust `Term::extract_list_tail`: second word of the cons cell. -/
def extract_list_tail (mem : Mem) (w : Nat) : NifResult Nat :=
  match decode_type mem w with
  | .listT => .ok (mem.word ((w &&& NOT_PRIMARY_MASK) + 4))
  | _ => .error .badArg

/-- Rust `Term::extract_binary_data`: size word at `boxed_ptr.add(1)`, then
`size` raw bytes starting at `boxed_ptr.add(2)`. -/
def extract_binary_data (mem : Mem) (w : Nat) : NifResult (List Nat) :=
  match decode_type mem w with
  | .binaryT =>
    let boxed_ptr := w &&& NOT_PRIMARY_MASK
    let size := mem.word (boxed_ptr + 4)
    .ok ((List.range size).map fun i => mem.byte (boxed_ptr + 8 + i))
  | _ => .error .badArg

/-- Rust `Term::extract_map_size`: size word at `boxed_ptr.add(1)`. -/
def extract_map_size (mem : Mem) (w : Nat) : NifResult Nat :=
  match decode_type mem w with
  | .mapT => .ok (mem.word ((w &&& NOT_PRIMARY_MASK) + 4))
  | _ => .error .badArg

/-- Rust `Term::extract_map_key`: placeholder in the source, always errors. -/
def extract_map_key (_mem : Mem) (_w : Nat) (_index : Nat) : NifResult Nat :=
  .error (.other "map traversal not implemented")

/-- Rust `Term::extract_map_value`: placeholder in the source, always errors. -/
def extract_map_value (_mem : Mem) (_w : Nat) (_index : Nat) : NifResult Nat :=
  .error (.other "map traversal not implemented")

/-- Rust `Term::extract_resource_ptr`: the pointer with primary-tag bits masked off. -/
def extract_resource_ptr (mem : Mem) (w : Nat) : NifResult Nat :=
  match decode_type mem w with
  | .resourceT => .ok (w &&& NOT_PRIMARY_MASK)
  | _ => .error .badArg

/-- Rust `Term::encode_small_int`: range check, then pack above the 4-bit tag. -/
def encode_small_int (value : Int) : NifResult Nat :=
  if value ≥ -(2 ^ 27) ∧ value < 2 ^ 27 then
    .ok ((((i32_as_usize value) <<< 4) % USIZE_MOD) ||| 0xF)
  else
    .error (.other "integer too large for small int")

/-- Rust `Term::encode_atom`: shift the index above the 4-bit tag. -/
def encode_atom (index : Nat) : NifResult Nat :=
  .ok (((index <<< 4) % USIZE_MOD) ||| 0xB)

/-- Rust `Term::encode_nil`: the nil sentinel word. -/
def encode_nil : Nat := TERM_NIL

/-- Rust `Term::encode_tuple`: placeholder in the source, always errors. -/
def encode_tuple (_elements : List Nat) (_heap : Heap) : NifResult Nat :=
  .error (.other "tuple encoding not implemented")

/-- Rust `Term::encode_list`: placeholder in the source, always errors. -/
def encode_list (_head _tail : Nat) (_heap : Heap) : NifResult Nat :=
  .error (.other "list encoding not implemented")

/-- Rust `Term::encode_binary`: placeholder in the source, always errors. -/
def encode_binary (_data : List Nat) (_heap : Heap) : NifResult Nat :=
  .error (.other "binary encoding not implemented")

/-- Rust `Term::encode_map`: placeholder in the source, always errors. -/
def encode_map (_pairs : List (Nat × Nat)) (_heap : Heap) : NifResult Nat :=
  .error (.other "map encoding not implemented")

mutual

/-- Rust `Term::to_value` from term.rs: decode a compact word into the ADT.
The extra `fuel` argument bounds the recursion depth (the Rust original
recurses through arbitrary heap memory and is partial on cyclic
structures; the spec documents acyclicity as an assumed precondition).
Fuel is consumed one unit per recursion level. -/
def to_value : Nat → Mem → Nat → NifResult TermValue
  | 0, _, _ => .error .invalidTerm
  | fuel + 1, mem, w =>
    match decode_type mem w with
    | .smallInt =>
      match extract_small_int mem w with
      | .error e => .error e
      | .ok val => .ok (.smallInt val)
    | .atom =>
      match extract_atom_index mem w with
      | .error e => .error e
      | .ok index => .ok (.atom index)
    | .nilT => .ok .nil
    | .tupleT =>
      match extract_tuple_arity mem w with
      | .error e => .error e
      | .ok arity =>
        match to_value_elems fuel mem w (List.range arity) with
        | .error e => .error e
        | .ok elements => .ok (.tuple elements)
    | .listT =>
      match extract_list_head mem w with
      | .error e => .error e
      | .ok head_term =>
        match extract_list_tail mem w with
        | .error e => .error e
        | .ok tail_term =>
          match to_value fuel mem head_term with
          | .error e => .error e
          | .ok hv =>
            match to_value fuel mem tail_term with
            | .error e => .error e
            | .ok tv => .ok (.list hv tv)
    | .binaryT =>
      match extract_binary_data mem w with
      | .error e => .error e
      | .ok data => .ok (.binary data)
    | .mapT =>
      match extract_map_size mem w with
      | .error e => .error e
      | .ok size =>
        match to_value_pairs fuel mem w (List.range size) with
        | .error e => .error e
        | .ok pairs => .ok (.map pairs)
    | .resourceT =>
      match extract_resource_ptr mem w with
      | .error e => .error e
      | .ok ptr => .ok (.resource "unknown" ptr)
    | .pidT => .ok (.pid (w >>> 4))
    | .portT => .ok (.port (w >>> 4))
    | _ => .ok .invalid
termination_by fuel _ _ => (fuel, 0)

/-- The element loop of `Term::to_value`'s tuple branch: extract each
element term and decode it, stopping at the first error. -/
def to_value_elems : Nat → Mem → Nat → List Nat → NifResult (List TermValue)
  | _, _, _, [] => .ok []
  | fuel, mem, w, i :: is =>
    match extract_tuple_element mem w i with
    | .error e => .error e
    | .ok elem_term =>
      match to_value fuel mem elem_term with
      | .error e => .error e
      | .ok v =>
        match to_value_elems fuel mem w is with
        | .error e => .error e
        | .ok rest => .ok (v :: rest)
termination_by fuel _ _ is => (fuel, is.length + 1)

/-- The pair loop of `Term::to_value`'s map branch: extract each key and
value term (the extractors are placeholders and error), then decode. -/
def to_value_pairs : Nat → Mem → Nat → List Nat → NifResult (List (TermValue × TermValue))
  | _, _, _, [] => .ok []
  | fuel, mem, w, i :: is =>
    match extract_map_key mem w i with
    | .error e => .error e
    | .ok key_term =>
      match extract_map_value mem w i with
      | .error e => .error e
      | .ok val_term =>
        match to_value fuel mem key_term with
        | .error e => .error e
        | .ok kv =>
          match to_value fuel mem val_term with
          | .error e => .error e
          | .ok vv =>
            match to_value_pairs fuel mem w is with
            | .error e => .error e
            | .ok rest => .ok ((kv, vv) :: rest)
termination_by fuel _ _ is => (fuel, is.length + 1)

end

mutual

/-- Rust `Term::from_value` from term.rs: encode the ADT into a compact word.
The compound branches first encode their children recursively, then call
the (placeholder) heap encoders. -/
def from_value : TermValue → Heap → NifResult Nat
  | .smallInt i, _ => encode_small_int i
  | .atom idx, _ => encode_atom idx
  | .nil, _ => .ok encode_nil
  | .tuple elements, heap =>
    match from_value_list elements heap with
    | .error e => .error e
    | .ok term_elements => encode_tuple term_elements heap
  | .list head tail, heap =>
    match from_value head heap with
    | .error e => .error e
    | .ok head_term =>
      match from_value tail heap with
      | .error e => .error e
      | .ok tail_term => encode_list head_term tail_term heap
  | .binary data, heap => encode_binary data heap
  | .map pairs, heap =>
    match from_value_pairs pairs heap with
    | .error e => .error e
    | .ok term_pairs => encode_map term_pairs heap
  | _, _ => .error (.other "unsupported term type for encoding")

/-- The `collect()` over a tuple's elements in `Term::from_value`. -/
def from_value_list : List TermValue → Heap → NifResult (List Nat)
  | [], _ => .ok []
  | v :: vs, heap =>
    match from_value v heap with
    | .error e => .error e
    | .ok t =>
      match from_value_list vs heap with
      | .error e => .error e
      | .ok ts => .ok (t :: ts)

/-- The `collect()` over a map's pairs in `Term::from_value`. -/
def from_value_pairs : List (TermValue × TermValue) → Heap → NifResult (List (Nat × Nat))
  | [], _ => .ok []
  | (k, v) :: ps, heap =>
    match from_value k heap with
    | .error e => .error e
    | .ok kt =>
      match from_value v heap with
      | .error e => .error e
      | .ok vt =>
        match from_value_pairs ps heap with
        | .error e => .error e
        | .ok ts => .ok ((kt, vt) :: ts)

end

end Term

/-- Rust `TermValue::fold_list`: fold over the elements of a cons chain,
stopping (with the accumulator so far) at any tail that is neither
`List` nor `Nil`. -/
def TermValue.fold_list {α : Type u} (v : TermValue) (init : α) (f : α → TermValue → α) : α :=
  match v with
  | .nil => init
  | .list head tail => tail.fold_list (f init head) f
  | _ => init

/-- Rust `TermValue::map_list`: map over the elements of a cons chain,
returning any non-list value unchanged. -/
def TermValue.map_list (v : TermValue) (f : TermValue → TermValue) : TermValue :=
  match v with
  | .nil => .nil
  | .list head tail => .list (f head) (tail.map_list f)
  | _ => v

/-- Rust `TermValue::filter_list`: filter the elements of a cons chain,
returning any non-list value unchanged. -/
def TermValue.filter_list (v : TermValue) (pred : TermValue → Bool) : TermValue :=
  match v with
  | .nil => .nil
  | .list head tail =>
    let filtered_tail := tail.filter_list pred
    if pred head then .list head filtered_tail else filtered_tail
  | _ => v

/-- Rust `TermValue::list_length`: counts well-formed cons links. -/
def TermValue.list_length (v : TermValue) : Nat :=
  v.fold_list 0 fun acc _ => acc + 1

/-- Rust `TermValue::map_get`: linear scan over the stored pairs using
the derived `PartialEq` on keys (`TermValue.beq`); `None` on any non-map
receiver. -/
def TermValue.map_get (v : TermValue) (key : TermValue) : Option TermValue :=
  match v with
  | .map pairs => (pairs.find? fun p => TermValue.beq p.1 key).map Prod.snd
  | _ => none

/-- Rust `TermValue::map_set`: returns a new map with the first pair
whose key compares equal to `key` (under the derived `PartialEq`,
`TermValue.beq`) replaced by `(key, value)`, or with `(key, value)`
appended when no key matches; any non-map receiver is returned
unchanged. -/
def TermValue.map_set (v : TermValue) (key value : TermValue) : TermValue :=
  match v with
  | .map pairs =>
    match pairs.findIdx? (fun p => TermValue.beq p.1 key) with
    | some pos => .map (pairs.set pos (key, value))
    | none => .map (pairs ++ [(key, value)])
  | _ => v

/-- Rust `AtomError` from atom.rs, together with the `InvalidAtomData` variant
that mocks.rs raises (the trait-based half of atom.rs declares it). -/
inductive AtomError : Type where
  | notFound
  | allocationFailed
  | invalidLength
  | nullPointer
  | invalidIndex
  | invalidAtomData
  deriving DecidableEq, Repr

/-- Rust `MockAtomTable` from testing/mocks.rs: the forward map from names to
ids, the reverse map from ids to names, and the next id counter (ids start
at 1; 0 is reserved for error cases).  The `RefCell` interior mutability
of the Rust struct is modelled by explicit state passing: every mutating
operation returns the updated table. -/
structure MockAtomTable : Type where
  atoms : List (String × Nat)
  reverse_atoms : List (Nat × String)
  next_id : Nat
  deriving DecidableEq, Repr

/-- Rust `MockAtomTable::new_empty`: a minimal table with no atoms. -/
def MockAtomTable.new_empty : MockAtomTable :=
  { atoms := [], reverse_atoms := [], next_id := 1 }

/-- Rust `MockAtomTable::ensure_atom_str`: reject names longer than 255 bytes,
return the existing id if the name is present, otherwise assign the next
id and record the name in both maps. -/
def MockAtomTable.ensure_atom_str (t : MockAtomTable) (name : String) :
    Except AtomError Nat × MockAtomTable :=
  if name.utf8ByteSize > 255 then (.error .invalidAtomData, t)
  else
    match t.atoms.lookup name with
    | some existing_id => (.ok existing_id, t)
    | none =>
      let new_id := t.next_id
      (.ok new_id,
       { atoms := (name, new_id) :: t.atoms,
         reverse_atoms := (new_id, name) :: t.reverse_atoms,
         next_id := t.next_id + 1 })

/-- Rust `MockAtomTable::get_atom_string` (modulo the `AtomRef` wrapper, whose
`as_str` is the identity here since all stored names come from `&str`). -/
def MockAtomTable.get_atom_string (t : MockAtomTable) (idx : Nat) :
    Except AtomError String :=
  match t.reverse_atoms.lookup idx with
  | some atom_str => .ok atom_str
  | none => .error .notFound

/-- Lexicographic byte order on UTF-8 strings, as a comparison on their
character sequences (UTF-8 byte order coincides with codepoint order):
the semantics of Rust's `String` `Ord`. -/
def str_lt_chars : List Char → List Char → Bool
  | [], [] => false
  | [], _ :: _ => true
  | _ :: _, [] => false
  | a :: xs, b :: ys =>
    if a.toNat < b.toNat then true
    else if b.toNat < a.toNat then false
    else str_lt_chars xs ys

/-- Rust `n1 < n2` on `String` values. -/
def str_lt (a b : String) : Bool := str_lt_chars a.data b.data

/-- Rust `MockAtomTable::compare_atoms`: compare the two names when both ids
resolve; a valid atom orders above an invalid one. -/
def MockAtomTable.compare_atoms (t : MockAtomTable) (idx1 idx2 : Nat) : Int :=
  match t.reverse_atoms.lookup idx1, t.reverse_atoms.lookup idx2 with
  | some n1, some n2 =>
    if str_lt n1 n2 then -1 else if str_lt n2 n1 then 1 else 0
  | some _, none => 1
  | none, some _ => -1
  | none, none => 0

/-- Rust `TaggedError` from tagged.rs. -/
inductive TaggedError : Type where
  | atomError : AtomError → TaggedError
  | wrongType : String → String → TaggedError
  | outOfBounds : Nat → Nat → TaggedError
  | missingField : String → TaggedError
  | typeMismatch : String → String → TaggedError
  | invalidVariant : String → String → TaggedError
  | outOfMemory
  | invalidUtf8
  | nestedError : String → TaggedError → TaggedError
  | other : String → TaggedError
  deriving DecidableEq, Repr

/-- Rust `get_type_atom` from tagged.rs, instantiated at the `AtomTableOps`
implementation present in src/ (the mock table): ensure the atom, wrapping
a failure into `TaggedError::AtomError`. -/
def get_type_atom (type_name : String) (t : MockAtomTable) :
    Except TaggedError Nat × MockAtomTable :=
  match t.ensure_atom_str type_name with
  | (.ok i, t2) => (.ok i, t2)
  | (.error e, t2) => (.error (.atomError e), t2)

/-- Rust `type_field_atom` from tagged.rs: the standard `type` field atom. -/
def type_field_atom (t : MockAtomTable) : Except TaggedError Nat × MockAtomTable :=
  get_type_atom "type" t

/-- Rust `get_map_value` from tagged.rs: find the pair whose key is the given
atom; a missing key is `Other("key not found in map")`, a non-map receiver
is `WrongType`. -/
def get_map_value (map : TermValue) (key_atom : Nat) : Except TaggedError TermValue :=
  match map with
  | .map pairs =>
    match (pairs.find? fun p => TermValue.beq p.1 (.atom key_atom)).map Prod.snd with
    | some v => .ok v
    | none => .error (.other "key not found in map")
  | _ => .error (.wrongType "map" "other")

/-- Rust `extract_int_field` from tagged.rs: required integer field. -/
def extract_int_field (map : TermValue) (field_name : String) (t : MockAtomTable) :
    Except TaggedError Int × MockAtomTable :=
  match get_type_atom field_name t with
  | (.error e, t1) => (.error e, t1)
  | (.ok field_atom, t1) =>
    match get_map_value map field_atom with
    | .error e => (.error e, t1)
    | .ok (.smallInt i) => (.ok i, t1)
    | .ok _ => (.error (.wrongType "integer" "other"), t1)

/-- Modelled from the spec: the table-parameterized `atoms::nil(table)`
helper called by tagged.rs is not under src/ (src/atom.rs only has the
global-table variant `atoms::nil()`); per the spec's dependency-injection
contract (§9: the generic `AtomTableOps` parameter is threaded through
every record-codec call) it resolves the well-known atom `nil` through
the injected directory, i.e. `table.ensure_atom_str("nil")`. -/
def atoms_nil (t : MockAtomTable) : Except AtomError Nat × MockAtomTable :=
  t.ensure_atom_str "nil"

/-- Rust `extract_optional_field` from tagged.rs: a missing key yields
`Ok(None)`; a present value equal to the `nil` atom yields `Ok(None)`;
any other present value goes through the extractor, wrapped in `Some`. -/
def extract_optional_field {R : Type} (map : TermValue) (field_name : String)
    (t : MockAtomTable)
    (extractor : TermValue → MockAtomTable → Except TaggedError R × MockAtomTable) :
    Except TaggedError (Option R) × MockAtomTable :=
  match get_type_atom field_name t with
  | (.error e, t1) => (.error e, t1)
  | (.ok field_atom, t1) =>
    match get_map_value map field_atom with
    | .ok value =>
      match atoms_nil t1 with
      | (.error e, t2) => (.error (.atomError e), t2)
      | (.ok nil_atom, t2) =>
        match value with
        | .atom atom_idx =>
          if atom_idx = nil_atom then (.ok none, t2)
          else
            match extractor value t2 with
            | (.ok x, t3) => (.ok (some x), t3)
            | (.error e, t3) => (.error e, t3)
        | _ =>
          match extractor value t2 with
          | (.ok x, t3) => (.ok (some x), t3)
          | (.error e, t3) => (.error e, t3)
    | .error _ => (.ok none, t1)

/-- Rust `validate_type_discriminator` from tagged.rs: resolve the `type` field
atom and the expected type atom, look the `type` key up in the map, then
compare atom indices; on mismatch the found atom's name (or "unknown") is
reported in a `TypeMismatch` error. -/
def validate_type_discriminator (map : TermValue) (expected_type : String)
    (t : MockAtomTable) : Except TaggedError Unit × MockAtomTable :=
  match type_field_atom t with
  | (.error e, t1) => (.error e, t1)
  | (.ok type_atom, t1) =>
    match get_type_atom expected_type t1 with
    | (.error e, t2) => (.error e, t2)
    | (.ok expected_type_atom, t2) =>
      match get_map_value map type_atom with
      | .error e => (.error e, t2)
      | .ok (.atom actual_type_atom) =>
        if actual_type_atom = expected_type_atom then (.ok (), t2)
        else
          let actual_name :=
            match t2.get_atom_string actual_type_atom with
            | .ok atom_str => atom_str
            | .error _ => "unknown"
          (.error (.typeMismatch expected_type actual_name), t2)
      | .ok _ => (.error (.wrongType "atom" "other"), t2)

/-- Rust `<i32 as TaggedMap>::from_tagged_map` from tagged.rs: validate the
discriminator against `"i32"`, then extract the required `value` field. -/
def i32_from_tagged_map (map : TermValue) (t : MockAtomTable) :
    Except TaggedError Int × MockAtomTable :=
  match validate_type_discriminator map "i32" t with
  | (.error e, t1) => (.error e, t1)
  | (.ok _, t1) => extract_int_field map "value" t1

/-! ## Arithmetic helper lemmas for the word codec -/

theorem nat_and_three (x : Nat) : x &&& 3 = x % 4 := by
  have h := Nat.and_pow_two_sub_one_eq_mod x 2
  norm_num at h
  exact h

theorem nat_and_fifteen (x : Nat) : x &&& 15 = x % 16 := by
  have h := Nat.and_pow_two_sub_one_eq_mod x 4
  norm_num at h
  exact h

theorem nat_or_fifteen (m : Nat) : (16 * m) ||| 15 = 16 * m + 15 := by
  have h := Nat.mul_add_lt_is_or (b := 15) (i := 4) (by norm_num) m
  norm_num at h
  exact h.symm

theorem nat_or_eleven (m : Nat) : (16 * m) ||| 11 = 16 * m + 11 := by
  have h := Nat.mul_add_lt_is_or (b := 11) (i := 4) (by norm_num) m
  norm_num at h
  exact h.symm

theorem shl4_mod_usize (x : Nat) : (x <<< 4) % USIZE_MOD = 16 * (x % 2 ^ 28) := by
  rw [Nat.shiftLeft_eq]
  unfold USIZE_MOD
  norm_num
  omega

theorem and_not_immed_mask (m r : Nat) (hr : r < 16) (hm : m < 2 ^ 28) :
    (16 * m + r) &&& Term.NOT_IMMED_MASK = 16 * m := by
  have hmask : Term.NOT_IMMED_MASK = 2 ^ 4 * (2 ^ 28 - 1) := by
    unfold Term.NOT_IMMED_MASK USIZE_MOD
    norm_num
  apply Nat.eq_of_testBit_eq
  intro j
  rw [Nat.testBit_and, hmask]
  rw [show 16 * m = 2 ^ 4 * m from by norm_num]
  rw [Nat.testBit_mul_pow_two_add m (show r < 2 ^ 4 by omega) j]
  simp only [Nat.testBit_mul_pow_two, Nat.testBit_two_pow_sub_one]
  rcases Nat.lt_or_ge j 4 with hj | hj
  · simp [hj, Nat.not_le_of_lt hj]
  · rw [if_neg (Nat.not_lt_of_le hj)]
    rcases Nat.lt_or_ge (j - 4) 28 with hj28 | hj28
    · simp [hj, hj28]
    · have hbit : m.testBit (j - 4) = false :=
        Nat.testBit_lt_two_pow (lt_of_lt_of_le hm (Nat.pow_le_pow_right (by norm_num) hj28))
      simp [hbit]

theorem decode_immed_smallint (mem : Mem) (m : Nat) :
    Term.decode_type mem (16 * m + 15) = .smallInt := by
  have h3 : (16 * m + 15) &&& 3 = 3 := by rw [nat_and_three]; omega
  have h15 : (16 * m + 15) &&& 15 = 15 := by rw [nat_and_fifteen]; omega
  have hne : 16 * m + 15 ≠ Term.TERM_NIL := by unfold Term.TERM_NIL; omega
  unfold Term.decode_type
  rw [if_neg hne, h3, h15]

theorem decode_immed_atom (mem : Mem) (m : Nat) (h : m ≠ 3) :
    Term.decode_type mem (16 * m + 11) = .atom := by
  have h3 : (16 * m + 11) &&& 3 = 3 := by rw [nat_and_three]; omega
  have h15 : (16 * m + 11) &&& 15 = 11 := by rw [nat_and_fifteen]; omega
  have hne : 16 * m + 11 ≠ Term.TERM_NIL := by unfold Term.TERM_NIL; omega
  unfold Term.decode_type
  rw [if_neg hne, h3, h15]

theorem small_int_roundtrip_aux (n : Int) (h1 : -(2 ^ 27) ≤ n) (h2 : n < 2 ^ 27) :
    Term.encode_small_int n = .ok (16 * ((Term.i32_as_usize n) % 2 ^ 28) + 15) ∧
    ∀ mem, Term.extract_small_int mem (16 * ((Term.i32_as_usize n) % 2 ^ 28) + 15) = .ok n := by
  set m : Nat := (Term.i32_as_usize n) % 2 ^ 28 with hm
  have hmlt : m < 2 ^ 28 := Nat.mod_lt _ (by norm_num)
  have hmval : (m : Int) = if 0 ≤ n then n else n + 2 ^ 28 := by
    have hk : Term.i32_as_usize n = (n % ((2 : Int) ^ 32)).toNat := by
      unfold Term.i32_as_usize USIZE_MOD
      norm_num
    rw [hm, hk]
    split <;> omega
  constructor
  · unfold Term.encode_small_int
    rw [if_pos ⟨h1, h2⟩]
    rw [shl4_mod_usize, ← hm, nat_or_fifteen]
  · intro mem
    unfold Term.extract_small_int
    rw [decode_immed_smallint]
    have hmask := and_not_immed_mask m 15 (by norm_num) hmlt
    rw [hmask]
    have hval : Term.as_i32 (16 * m) = 16 * n := by
      unfold Term.as_i32 USIZE_MOD
      split <;> split at hmval <;> omega
    rw [hval]
    unfold Term.i32_asr
    rw [show ((2 : Int) ^ 4) = 16 from by norm_num]
    rw [Int.mul_fdiv_cancel_left n (by norm_num)]

theorem atom_roundtrip_aux (i : Nat) (h1 : i < 2 ^ 28) (h2 : i ≠ 3) :
    Term.encode_atom i = .ok (16 * i + 11) ∧
    ∀ mem, Term.extract_atom_index mem (16 * i + 11) = .ok i := by
  constructor
  · unfold Term.encode_atom
    rw [shl4_mod_usize, Nat.mod_eq_of_lt h1, nat_or_eleven]
  · intro mem
    unfold Term.extract_atom_index
    rw [decode_immed_atom mem i h2]
    rw [Nat.shiftRight_eq_div_pow]
    norm_num
    omega

/-- Claim C3: `Term::encode_small_int(n)` succeeds exactly on the packed
range `-(2^27) ≤ n ≤ 2^27 - 1`; both boundary values succeed and both
values just outside fail with the typed out-of-range error. -/
theorem encode_small_int_range :
    (∀ n : Int, (∃ w, Term.encode_small_int n = .ok w) ↔
      (-(2 ^ 27) ≤ n ∧ n ≤ 2 ^ 27 - 1)) ∧
    (∃ w, Term.encode_small_int (2 ^ 27 - 1) = .ok w) ∧
    Term.encode_small_int (2 ^ 27) = .error (.other "integer too large for small int") ∧
    (∃ w, Term.encode_small_int (-(2 ^ 27)) = .ok w) ∧
    Term.encode_small_int (-(2 ^ 27) - 1) = .error (.other "integer too large for small int") := by
  have hgen : ∀ n : Int, (∃ w, Term.encode_small_int n = .ok w) ↔
      (-(2 ^ 27) ≤ n ∧ n ≤ 2 ^ 27 - 1) := by
    intro n
    constructor
    · rintro ⟨w, hw⟩
      unfold Term.encode_small_int at hw
      split at hw
      · next hcond => omega
      · simp at hw
    · intro hrange
      unfold Term.encode_small_int
      rw [if_pos (⟨by omega, by omega⟩ : n ≥ -(2 ^ 27) ∧ n < 2 ^ 27)]
      exact ⟨_, rfl⟩
  refine ⟨hgen, (hgen _).mpr (by omega), ?_, (hgen _).mpr (by omega), ?_⟩
  · unfold Term.encode_small_int
    rw [if_neg (by omega)]
  · unfold Term.encode_small_int
    rw [if_neg (by omega)]

/-- Witness for C3 at the concrete input 5. -/
theorem encode_small_int_range_witness :
    ∃ w, Term.encode_small_int 5 = .ok w :=
  (encode_small_int_range.1 5).mpr (by decide)

/-- Claim C4: every integer in the packed range round-trips through
`Term::encode_small_int` and `Term::extract_small_int`; the payload above
the 4-bit tag is recovered by sign-extending two's complement, so
negative values round-trip correctly. -/
theorem small_int_roundtrip (n : Int)
    (h1 : -(2 ^ 27) ≤ n) (h2 : n ≤ 2 ^ 27 - 1) :
    ∃ w, Term.encode_small_int n = .ok w ∧
      ∀ mem, Term.extract_small_int mem w = .ok n := by
  have h := small_int_roundtrip_aux n h1 (by omega)
  exact ⟨_, h.1, h.2⟩

/-- Witness for C4 at the concrete negative input -5. -/
theorem small_int_roundtrip_witness :
    ∃ w, Term.encode_small_int (-5) = .ok w ∧
      ∀ mem, Term.extract_small_int mem w = .ok (-5) :=
  small_int_roundtrip (-5) (by decide) (by decide)

theorem decode_type_eq_nil_iff (mem : Mem) (w : Nat) :
    Term.decode_type mem w = .nilT ↔ w = Term.TERM_NIL := by
  constructor
  · intro h
    by_contra hne
    unfold Term.decode_type at h
    rw [if_neg hne] at h
    split at h
    · split at h <;> exact TermType.noConfusion h
    · exact TermType.noConfusion h
    · dsimp only at h
      split at h
      · exact TermType.noConfusion h
      · split at h <;> exact TermType.noConfusion h
    · exact TermType.noConfusion h
  · intro h
    subst h
    unfold Term.decode_type
    rw [if_pos rfl]

theorem to_value_ok_nil_iff (fuel : Nat) (mem : Mem) (w : Nat) :
    Term.to_value (fuel + 1) mem w = .ok .nil ↔ w = Term.TERM_NIL := by
  constructor
  · intro h
    simp only [Term.to_value] at h
    cases hD : Term.decode_type mem w <;> simp only [hD] at h
    case nilT => exact (decode_type_eq_nil_iff mem w).mp hD
    case smallInt =>
      cases hE : Term.extract_small_int mem w <;> simp only [hE] at h <;> simp at h
    case atom =>
      cases hE : Term.extract_atom_index mem w <;> simp only [hE] at h <;> simp at h
    case pidT => simp at h
    case portT => simp at h
    case referenceT => simp at h
    case tupleT =>
      cases hE : Term.extract_tuple_arity mem w with
      | error e => simp [hE] at h
      | ok arity =>
        simp only [hE] at h
        cases hE2 : Term.to_value_elems fuel mem w (List.range arity) <;>
          simp [hE2] at h
    case listT =>
      cases hE : Term.extract_list_head mem w with
      | error e => simp [hE] at h
      | ok head_term =>
        simp only [hE] at h
        cases hE2 : Term.extract_list_tail mem w with
        | error e => simp [hE2] at h
        | ok tail_term =>
          simp only [hE2] at h
          cases hE3 : Term.to_value fuel mem head_term with
          | error e => simp [hE3] at h
          | ok hv =>
            simp only [hE3] at h
            cases hE4 : Term.to_value fuel mem tail_term <;> simp [hE4] at h
    case mapT =>
      cases hE : Term.extract_map_size mem w with
      | error e => simp [hE] at h
      | ok size =>
        simp only [hE] at h
        cases hE2 : Term.to_value_pairs fuel mem w (List.range size) <;>
          simp [hE2] at h
    case binaryT =>
      cases hE : Term.extract_binary_data mem w <;> simp [hE] at h
    case resourceT =>
      cases hE : Term.extract_resource_ptr mem w <;> simp [hE] at h
    case functionT => simp at h
    case floatT => simp at h
    case invalidT => simp at h
  · intro h
    subst h
    simp only [Term.to_value]
    rw [(decode_type_eq_nil_iff mem Term.TERM_NIL).mpr rfl]

/-- Claim C8: decoding the word 0x3B yields `Nil`, encoding `Nil` produces
the word 0x3B, and 0x3B is the unique bit pattern whose decoding yields
`Nil`: for every word `w` (and any heap contents and positive recursion
fuel), `Term::to_value` returns `Ok(Nil)` iff `w = 0x3B`. -/
theorem nil_identity :
    Term.encode_nil = 0x3B ∧
    ∀ fuel mem w, Term.to_value (fuel + 1) mem w = .ok .nil ↔ w = 0x3B :=
  ⟨rfl, fun fuel mem w => to_value_ok_nil_iff fuel mem w⟩

/-- The immediate fragment on which the encode/decode round trip holds:
small integers in the packed range, atoms whose index fits above the tag
(below `2^28`) and is not 3 (index 3 would encode to the word 0x3B, the
nil sentinel), and nil itself. -/
def immed_roundtrip_ok : TermValue → Prop
  | .smallInt n => -(2 ^ 27) ≤ n ∧ n < 2 ^ 27
  | .atom i => i < 2 ^ 28 ∧ i ≠ 3
  | .nil => True
  | _ => False

/-- Counterexample to claim C1 as stated: the round trip fails on the
compound value `Tuple([])` (a member of the claimed supported variant
set) because `Term::from_value` delegates to the placeholder
`Term::encode_tuple`, which always errors; no compact word is produced
at all. -/
theorem roundtrip_fails_on_compound :
    Term.from_value (.tuple []) ⟨()⟩ = .error (.other "tuple encoding not implemented") ∧
    ¬ ∃ w, Term.from_value (.tuple []) ⟨()⟩ = .ok w := by
  refine ⟨rfl, ?_⟩
  rintro ⟨w, hw⟩
  rw [show Term.from_value (.tuple []) ⟨()⟩ =
    .error (.other "tuple encoding not implemented") from rfl] at hw
  exact Except.noConfusion hw

/-- Claim C1 (amended): the decode-after-encode round trip holds exactly
for the immediate values `Term::from_value` can actually produce a word
for — `SmallInt` in the packed range, `Atom` with index below `2^28` and
different from 3, and `Nil`; all compound values (`Tuple`, `List`,
`Binary`, `Map`) fail to encode with a typed "not implemented" error
because the heap encoders are placeholders in the source. -/
theorem roundtrip_immediates (v : TermValue) (heap : Heap)
    (h : immed_roundtrip_ok v) :
    ∃ w, Term.from_value v heap = .ok w ∧
      ∀ mem fuel, Term.to_value (fuel + 1) mem w = .ok v := by
  cases v with
  | smallInt n =>
    obtain ⟨h1, h2⟩ := h
    have ha := small_int_roundtrip_aux n h1 h2
    refine ⟨16 * (Term.i32_as_usize n % 2 ^ 28) + 15, ?_, ?_⟩
    · exact ha.1
    · intro mem fuel
      simp only [Term.to_value]
      rw [decode_immed_smallint, ha.2 mem]
  | atom i =>
    obtain ⟨h1, h2⟩ := h
    have ha := atom_roundtrip_aux i h1 h2
    refine ⟨16 * i + 11, ?_, ?_⟩
    · exact ha.1
    · intro mem fuel
      simp only [Term.to_value]
      rw [decode_immed_atom mem i h2, ha.2 mem]
  | nil =>
    refine ⟨0x3B, rfl, ?_⟩
    intro mem fuel
    exact (to_value_ok_nil_iff fuel mem 0x3B).mpr rfl
  | pid _ => exact h.elim
  | port _ => exact h.elim
  | reference _ => exact h.elim
  | tuple _ => exact h.elim
  | list _ _ => exact h.elim
  | map _ => exact h.elim
  | binary _ => exact h.elim
  | function _ _ _ => exact h.elim
  | resource _ _ => exact h.elim
  | float _ => exact h.elim
  | invalid => exact h.elim

/-- Witness for the amended C1 at the concrete input `SmallInt(-7)`. -/
theorem roundtrip_immediates_witness :
    ∃ w, Term.from_value (.smallInt (-7)) ⟨()⟩ = .ok w ∧
      ∀ mem fuel, Term.to_value (fuel + 1) mem w = .ok (.smallInt (-7)) :=
  roundtrip_immediates (.smallInt (-7)) ⟨()⟩
    (show -(2 ^ 27) ≤ (-7 : Int) ∧ (-7 : Int) < 2 ^ 27 by decide)

/-- Claim C5: `fold_list` over the improper list `Cons(1, Cons(2, SmallInt(3)))`
yields the same result as over the proper list `Cons(1, Cons(2, Nil))`, for
every accumulator and every function; in general `fold_list` (and `map_list`
and `filter_list` likewise) stops at the first tail that is neither `Cons`
nor `Nil`, returning the accumulator so far (respectively leaving the value
unchanged) without error. -/
theorem improper_list_tolerance :
    (∀ {α : Type} (init : α) (f : α → TermValue → α),
      TermValue.fold_list (.list (.smallInt 1) (.list (.smallInt 2) (.smallInt 3))) init f =
        TermValue.fold_list (.list (.smallInt 1) (.list (.smallInt 2) .nil)) init f) ∧
    (∀ {α : Type} (v : TermValue) (init : α) (f : α → TermValue → α),
      (∀ h t, v ≠ .list h t) → v ≠ .nil → v.fold_list init f = init) ∧
    (∀ (v : TermValue) (f : TermValue → TermValue),
      (∀ h t, v ≠ .list h t) → v ≠ .nil → v.map_list f = v) ∧
    (∀ (v : TermValue) (pred : TermValue → Bool),
      (∀ h t, v ≠ .list h t) → v ≠ .nil → v.filter_list pred = v) := by
  refine ⟨fun init f => rfl, ?_, ?_, ?_⟩
  · intro α v init f hl hn
    cases v <;> first | rfl | exact absurd rfl (hl _ _)
  · intro v f hl hn
    cases v <;> first | rfl | exact absurd rfl (hl _ _)
  · intro v pred hl hn
    cases v <;> first | rfl | exact absurd rfl (hl _ _)

/-- Witness for C5: the fold equality at a concrete counting function, and
the three traversals applied to the non-list value `SmallInt(3)`. -/
theorem improper_list_tolerance_witness :
    TermValue.fold_list (.list (.smallInt 1) (.list (.smallInt 2) (.smallInt 3)))
        (0 : Nat) (fun a _ => a + 1) =
      TermValue.fold_list (.list (.smallInt 1) (.list (.smallInt 2) .nil))
        (0 : Nat) (fun a _ => a + 1) ∧
    TermValue.fold_list (.smallInt 3) (0 : Nat) (fun a _ => a + 1) = 0 ∧
    TermValue.map_list (.smallInt 3) (fun x => x) = .smallInt 3 ∧
    TermValue.filter_list (.smallInt 3) (fun _ => true) = .smallInt 3 :=
  ⟨improper_list_tolerance.1 0 (fun a _ => a + 1),
   improper_list_tolerance.2.1 (.smallInt 3) 0 (fun a _ => a + 1)
     (fun _ _ h' => nomatch h') (fun h' => nomatch h'),
   improper_list_tolerance.2.2.1 (.smallInt 3) (fun x => x)
     (fun _ _ h' => nomatch h') (fun h' => nomatch h'),
   improper_list_tolerance.2.2.2 (.smallInt 3) (fun _ => true)
     (fun _ _ h' => nomatch h') (fun h' => nomatch h')⟩

/-- The spec's description of `map_set` on a map: walk the stored pairs
in order, replace the first pair whose key compares equal to the new key
(under the program's `PartialEq`, `TermValue.beq`) by `(key, value)`
keeping every other pair in place, and append `(key, value)` as the new
last pair when no key matches. -/
def map_set_spec (pairs : List (TermValue × TermValue)) (key value : TermValue) :
    List (TermValue × TermValue) :=
  match pairs with
  | [] => [(key, value)]
  | (k, v) :: rest =>
    if TermValue.beq k key then (key, value) :: rest
    else (k, v) :: map_set_spec rest key value

theorem set_pairs_eq (key value : TermValue) (pairs : List (TermValue × TermValue)) :
    (match pairs.findIdx? (fun p => TermValue.beq p.1 key) with
     | some pos => pairs.set pos (key, value)
     | none => pairs ++ [(key, value)]) = map_set_spec pairs key value := by
  induction pairs with
  | nil => rfl
  | cons hd rest ih =>
    obtain ⟨k, v⟩ := hd
    cases hb : TermValue.beq k key with
    | true => simp [List.findIdx?_cons, hb, map_set_spec]
    | false =>
      have hcons : ((k, v) :: rest).findIdx? (fun p => TermValue.beq p.1 key) =
          (rest.findIdx? (fun p => TermValue.beq p.1 key)).map fun i => i + 1 := by
        simp [List.findIdx?_cons, hb, List.findIdx?_succ]
      rw [hcons]
      cases hF : rest.findIdx? (fun p => TermValue.beq p.1 key) with
      | none =>
        rw [hF] at ih
        simp only [Option.map_none']
        simp [map_set_spec, hb]
        exact ih
      | some i =>
        rw [hF] at ih
        simp only [Option.map_some']
        simp [map_set_spec, hb]
        exact ih

/-- Counterexample to claim C6 as stated: with the NaN-payload float key
`Float(0x7FF8000000000000)`, the derived `PartialEq` used by `map_set`
finds no matching pair (IEEE equality makes NaN unequal to itself), so
the update for this already-stored key is appended as a new last pair
instead of replacing the stored pair in place as the claim's
`[(k1,v1),(k2,v2)] + (k1,v3) -> [(k1,v3),(k2,v2)]` example predicts. -/
theorem map_set_nan_key_appends :
    TermValue.map_set
        (.map [(.float 0x7FF8000000000000, .smallInt 1), (.smallInt 2, .smallInt 3)])
        (.float 0x7FF8000000000000) (.smallInt 4) =
      .map [(.float 0x7FF8000000000000, .smallInt 1), (.smallInt 2, .smallInt 3),
            (.float 0x7FF8000000000000, .smallInt 4)] ∧
    TermValue.map_set
        (.map [(.float 0x7FF8000000000000, .smallInt 1), (.smallInt 2, .smallInt 3)])
        (.float 0x7FF8000000000000) (.smallInt 4) ≠
      .map [(.float 0x7FF8000000000000, .smallInt 4), (.smallInt 2, .smallInt 3)] := by
  have hnan : TermValue.beq (.float 0x7FF8000000000000) (.float 0x7FF8000000000000) = false := by
    simp only [TermValue.beq]
    simp [f64_beq, f64_is_nan]
  have hmix : TermValue.beq (.smallInt 2) (.float 0x7FF8000000000000) = false := by
    simp [TermValue.beq]
  have hF : List.findIdx? (fun p => TermValue.beq p.1 (.float 0x7FF8000000000000))
      [((.float 0x7FF8000000000000 : TermValue), (.smallInt 1 : TermValue)),
       (.smallInt 2, .smallInt 3)] = none := by
    simp [List.findIdx?_cons, hnan, hmix]
  constructor
  · unfold TermValue.map_set
    dsimp only
    rw [hF]
    rfl
  · intro h
    unfold TermValue.map_set at h
    dsimp only at h
    rw [hF] at h
    simp at h

/-- Claim C6 (amended): `map_set` on a map replaces in place the first
pair whose key compares equal to the new key under the program's
`PartialEq` semantics (`TermValue.beq`: structural, with IEEE equality
on float payloads) and appends `(key, value)` as a new last pair when no
stored key compares equal — stated via `map_set_spec`, the spec's
replace-or-append recursion; the concrete example
`map_set([(k1,v1),(k2,v2)], k1, v3) = [(k1,v3),(k2,v2)]` holds for every
key `k1` that compares equal to itself, i.e. every key not containing a
NaN float payload.  The receiver is taken by shared reference and the
new map is built from a copy of the pairs vector, so the original value
is unchanged (the embedding is pure: `map_set` is a function of the old
value). -/
theorem map_set_persistence :
    (∀ pairs key value,
      TermValue.map_set (.map pairs) key value = .map (map_set_spec pairs key value)) ∧
    (∀ k1 v1 k2 v2 v3, TermValue.beq k1 k1 = true →
      TermValue.map_set (.map [(k1, v1), (k2, v2)]) k1 v3 = .map [(k1, v3), (k2, v2)]) := by
  have hgen : ∀ pairs key value,
      TermValue.map_set (.map pairs) key value = .map (map_set_spec pairs key value) := by
    intro pairs key value
    have h := set_pairs_eq key value pairs
    cases hF : pairs.findIdx? (fun p => TermValue.beq p.1 key) <;>
      rw [hF] at h <;> simp [TermValue.map_set, hF, ← h]
  refine ⟨hgen, ?_⟩
  intro k1 v1 k2 v2 v3 hrefl
  rw [hgen]
  simp [map_set_spec, hrefl]

/-- Witness for the amended C6 at concrete atom keys (atoms always
compare equal to themselves). -/
theorem map_set_persistence_witness :
    TermValue.map_set (.map [(.atom 1, .smallInt 1), (.atom 2, .smallInt 2)])
        (.atom 1) (.smallInt 9) =
      .map [(.atom 1, .smallInt 9), (.atom 2, .smallInt 2)] :=
  map_set_persistence.2 (.atom 1) (.smallInt 1) (.atom 2) (.smallInt 2) (.smallInt 9)
    (by simp [TermValue.beq])

/-- Claim C10: on every non-map receiver, `map_set` returns the receiver
itself unchanged (the update is silently dropped, not an error) and
`map_get` returns `None` — at this interface a non-map value is
indistinguishable from a map lacking the key. -/
theorem map_ops_on_non_map (v : TermValue) (h : ∀ ps, v ≠ .map ps) :
    (∀ key value, v.map_set key value = v) ∧ (∀ key, v.map_get key = none) := by
  cases v <;> first | exact ⟨fun _ _ => rfl, fun _ => rfl⟩ | exact absurd rfl (h _)

/-- Witness for C10 at the concrete non-map receiver `SmallInt(1)`. -/
theorem map_ops_on_non_map_witness :
    (TermValue.smallInt 1).map_set .nil .nil = .smallInt 1 ∧
    (TermValue.smallInt 1).map_get .nil = none :=
  ⟨(map_ops_on_non_map (.smallInt 1) (fun _ h' => nomatch h')).1 .nil .nil,
   (map_ops_on_non_map (.smallInt 1) (fun _ h' => nomatch h')).2 .nil⟩

/-- Well-formedness of a mock atom table: the two maps are mutually
inverse and every issued id is below the next-id counter.  It holds for
every table reachable from `new_empty` (or `new`) by `ensure_atom_str`
calls, which are the only mutations. -/
def MockAtomTable.wf (t : MockAtomTable) : Prop :=
  (∀ n i, t.atoms.lookup n = some i → t.reverse_atoms.lookup i = some n) ∧
  (∀ i n, t.reverse_atoms.lookup i = some n → t.atoms.lookup n = some i) ∧
  (∀ n i, t.atoms.lookup n = some i → i < t.next_id)

theorem wf_new_empty : MockAtomTable.new_empty.wf := by
  refine ⟨?_, ?_, ?_⟩ <;> intro a b hl <;> simp [MockAtomTable.new_empty] at hl

theorem ensure_ok_mem {t : MockAtomTable} {x : String} {i : Nat} {t' : MockAtomTable}
    (h : t.ensure_atom_str x = (.ok i, t')) : t'.atoms.lookup x = some i := by
  unfold MockAtomTable.ensure_atom_str at h
  split at h
  · simp at h
  · split at h
    · next j hj =>
      rw [Prod.mk.injEq] at h
      obtain ⟨h1, h2⟩ := h
      obtain rfl := Except.ok.inj h1
      subst h2
      exact hj
    · next hj =>
      rw [Prod.mk.injEq] at h
      obtain ⟨h1, h2⟩ := h
      obtain rfl := Except.ok.inj h1
      subst h2
      simp [List.lookup_cons_self]

theorem ensure_preserves {t : MockAtomTable} {x : String} {r : Except AtomError Nat}
    {t' : MockAtomTable} (h : t.ensure_atom_str x = (r, t'))
    {n : String} {i : Nat} (hl : t.atoms.lookup n = some i) :
    t'.atoms.lookup n = some i := by
  unfold MockAtomTable.ensure_atom_str at h
  split at h
  · rw [Prod.mk.injEq] at h
    obtain ⟨_, h2⟩ := h
    subst h2
    exact hl
  · split at h
    · rw [Prod.mk.injEq] at h
      obtain ⟨_, h2⟩ := h
      subst h2
      exact hl
    · next hj =>
      rw [Prod.mk.injEq] at h
      obtain ⟨_, h2⟩ := h
      subst h2
      rw [List.lookup_cons]
      by_cases hnx : n = x
      · subst hnx
        rw [hl] at hj
        exact absurd hj (by simp)
      · rw [show (n == x) = false from beq_false_of_ne hnx]
        exact hl

theorem ensure_reverse_preserves {t : MockAtomTable} {x : String}
    {r : Except AtomError Nat} {t' : MockAtomTable} (hwf : t.wf)
    (h : t.ensure_atom_str x = (r, t'))
    {i : Nat} {n : String} (hl : t.reverse_atoms.lookup i = some n) :
    t'.reverse_atoms.lookup i = some n := by
  unfold MockAtomTable.ensure_atom_str at h
  split at h
  · rw [Prod.mk.injEq] at h
    obtain ⟨_, h2⟩ := h
    subst h2
    exact hl
  · split at h
    · rw [Prod.mk.injEq] at h
      obtain ⟨_, h2⟩ := h
      subst h2
      exact hl
    · rw [Prod.mk.injEq] at h
      obtain ⟨_, h2⟩ := h
      subst h2
      rw [List.lookup_cons]
      have hlt : i < t.next_id := hwf.2.2 n i (hwf.2.1 i n hl)
      have hne : i ≠ t.next_id := by omega
      simp only [show (i == t.next_id) = false from by simp [hne]]
      exact hl

theorem ensure_wf {t : MockAtomTable} {x : String} {r : Except AtomError Nat}
    {t' : MockAtomTable} (hwf : t.wf) (h : t.ensure_atom_str x = (r, t')) :
    t'.wf := by
  unfold MockAtomTable.ensure_atom_str at h
  split at h
  · rw [Prod.mk.injEq] at h
    obtain ⟨_, h2⟩ := h
    subst h2
    exact hwf
  · split at h
    · rw [Prod.mk.injEq] at h
      obtain ⟨_, h2⟩ := h
      subst h2
      exact hwf
    · next hj =>
      rw [Prod.mk.injEq] at h
      obtain ⟨_, h2⟩ := h
      subst h2
      obtain ⟨hw1, hw2, hw3⟩ := hwf
      refine ⟨?_, ?_, ?_⟩
      · intro n i hl
        rw [List.lookup_cons] at hl ⊢
        by_cases hnx : n = x
        · subst hnx
          simp at hl
          simp [hl]
        · rw [show (n == x) = false from beq_false_of_ne hnx] at hl
          have hrev := hw1 n i hl
          have hlt : i < t.next_id := hw3 n i hl
          have hne : i ≠ t.next_id := by omega
          simp only [show (i == t.next_id) = false from by simp [hne]]
          exact hrev
      · intro i n hl
        rw [List.lookup_cons] at hl ⊢
        by_cases hin : i = t.next_id
        · subst hin
          simp at hl
          simp [hl]
        · rw [show (i == t.next_id) = false from beq_false_of_ne hin] at hl
          have hat := hw2 i n hl
          by_cases hnx : n = x
          · subst hnx
            rw [hj] at hat
            exact absurd hat (by simp)
          · rw [show (n == x) = false from beq_false_of_ne hnx]
            exact hat
      · intro n i hl
        rw [List.lookup_cons] at hl
        show i < t.next_id + 1
        by_cases hnx : n = x
        · subst hnx
          simp at hl
          omega
        · rw [show (n == x) = false from beq_false_of_ne hnx] at hl
          have := hw3 n i hl
          omega

/-- Claim C7: on a single atom directory instance, `ensure_atom_str` is
idempotent (repeating a successful call returns the same id and leaves
the table unchanged), injective (distinct names get distinct ids), and
`compare_atoms` on the ids of two ensured names follows the lexicographic
byte order of the names (here: a strictly smaller first name compares
negative). -/
theorem atom_directory_contract (t : MockAtomTable) (hwf : t.wf) :
    (∀ x i t', t.ensure_atom_str x = (.ok i, t') →
      t'.ensure_atom_str x = (.ok i, t')) ∧
    (∀ x y ix t1 iy t2, t.ensure_atom_str x = (.ok ix, t1) →
      t1.ensure_atom_str y = (.ok iy, t2) → x ≠ y → ix ≠ iy) ∧
    (∀ x y ix t1 iy t2, t.ensure_atom_str x = (.ok ix, t1) →
      t1.ensure_atom_str y = (.ok iy, t2) → str_lt x y = true →
      t2.compare_atoms ix iy = -1) := by
  refine ⟨?_, ?_, ?_⟩
  · intro x i t' h
    have hmem := ensure_ok_mem h
    have hlen : ¬ x.utf8ByteSize > 255 := by
      by_contra hc
      unfold MockAtomTable.ensure_atom_str at h
      rw [if_pos hc] at h
      rw [Prod.mk.injEq] at h
      exact absurd h.1 (by simp)
    unfold MockAtomTable.ensure_atom_str
    rw [if_neg hlen, hmem]
  · intro x y ix t1 iy t2 h1 h2 hxy
    have h1m := ensure_ok_mem h1
    have hwf1 := ensure_wf hwf h1
    have h2m := ensure_ok_mem h2
    have h1m2 := ensure_preserves h2 h1m
    have hwf2 := ensure_wf hwf1 h2
    intro heq
    subst heq
    have ha := hwf2.1 x ix h1m2
    have hb := hwf2.1 y ix h2m
    rw [ha] at hb
    exact hxy (Option.some.inj hb)
  · intro x y ix t1 iy t2 h1 h2 hlt
    have h1m := ensure_ok_mem h1
    have hwf1 := ensure_wf hwf h1
    have h2m := ensure_ok_mem h2
    have h1m2 := ensure_preserves h2 h1m
    have hwf2 := ensure_wf hwf1 h2
    have ha := hwf2.1 x ix h1m2
    have hb := hwf2.1 y iy h2m
    unfold MockAtomTable.compare_atoms
    rw [ha, hb]
    simp [hlt]

/-- Witness for C7 from the empty directory: ensuring `"a"` then `"b"`
gives ids 1 and 2; repeating `ensure("a")` is a no-op returning 1 again;
the ids differ; and `compare_atoms` on them is negative since
`"a" < "b"` in byte order. -/
theorem atom_directory_contract_witness :
    (MockAtomTable.mk [("a", 1)] [(1, "a")] 2).ensure_atom_str "a" =
      (.ok 1, MockAtomTable.mk [("a", 1)] [(1, "a")] 2) ∧
    (1 : Nat) ≠ 2 ∧
    (MockAtomTable.mk [("b", 2), ("a", 1)] [(2, "b"), (1, "a")] 3).compare_atoms 1 2 = -1 := by
  have h := atom_directory_contract MockAtomTable.new_empty wf_new_empty
  refine ⟨?_, ?_, ?_⟩
  · exact h.1 "a" 1 (MockAtomTable.mk [("a", 1)] [(1, "a")] 2) (by rfl)
  · exact h.2.1 "a" "b" 1 (MockAtomTable.mk [("a", 1)] [(1, "a")] 2) 2
      (MockAtomTable.mk [("b", 2), ("a", 1)] [(2, "b"), (1, "a")] 3)
      (by rfl) (by rfl) (by decide)
  · exact h.2.2 "a" "b" 1 (MockAtomTable.mk [("a", 1)] [(1, "a")] 2) 2
      (MockAtomTable.mk [("b", 2), ("a", 1)] [(2, "b"), (1, "a")] 3)
      (by rfl) (by rfl) (by rfl)

/-- Claim C2 (amended): `validate_type_discriminator` (and through it
`from_tagged_map`) fails with `TypeMismatch` when the map's `type` atom
differs from the expected type's atom, with `WrongType` when the input
value is not a map, and — this is the part the source does differently
from the claim — with `Other("key not found in map")` (raised by
`get_map_value`), not `MissingField`, when the `type` key is absent;
any validation error is propagated unchanged by `from_tagged_map`,
so a mismatched map is never silently parsed. -/
theorem validate_discriminator_behavior :
    (∀ t expected pairs ta t1 ea t2 j,
      type_field_atom t = (.ok ta, t1) →
      get_type_atom expected t1 = (.ok ea, t2) →
      (pairs.find? fun p => TermValue.beq p.1 (.atom ta)).map Prod.snd = some (.atom j) →
      j ≠ ea →
      ∃ found, validate_type_discriminator (.map pairs) expected t =
        (.error (.typeMismatch expected found), t2)) ∧
    (∀ t expected v ta t1 ea t2,
      type_field_atom t = (.ok ta, t1) →
      get_type_atom expected t1 = (.ok ea, t2) →
      (∀ ps, v ≠ .map ps) →
      validate_type_discriminator v expected t =
        (.error (.wrongType "map" "other"), t2)) ∧
    (∀ t expected pairs ta t1 ea t2,
      type_field_atom t = (.ok ta, t1) →
      get_type_atom expected t1 = (.ok ea, t2) →
      (pairs.find? fun p => TermValue.beq p.1 (.atom ta)).map Prod.snd = none →
      validate_type_discriminator (.map pairs) expected t =
        (.error (.other "key not found in map"), t2)) ∧
    (∀ map t e t',
      validate_type_discriminator map "i32" t = (.error e, t') →
      i32_from_tagged_map map t = (.error e, t')) := by
  refine ⟨?_, ?_, ?_, ?_⟩
  · intro t expected pairs ta t1 ea t2 j hta hea hfind hj
    refine ⟨(match t2.get_atom_string j with | .ok s => s | .error _ => "unknown"), ?_⟩
    unfold validate_type_discriminator
    simp only [hta, hea]
    unfold get_map_value
    dsimp only
    rw [hfind]
    dsimp only
    rw [if_neg hj]
  · intro t expected v ta t1 ea t2 hta hea hv
    unfold validate_type_discriminator
    simp only [hta, hea]
    cases v <;> first | rfl | exact absurd rfl (hv _)
  · intro t expected pairs ta t1 ea t2 hta hea hfind
    unfold validate_type_discriminator
    simp only [hta, hea]
    unfold get_map_value
    dsimp only
    rw [hfind]
  · intro map t e t' hval
    unfold i32_from_tagged_map
    rw [hval]

/-- Counterexample to claim C2 as stated: on a map with no `type` key at
all, `from_tagged_map` for `i32` fails with `Other("key not found in
map")` (the error `get_map_value` raises), not with `MissingField` as the
claim asserts. -/
theorem missing_type_key_not_missing_field :
    i32_from_tagged_map (.map []) MockAtomTable.new_empty =
      (.error (.other "key not found in map"),
       MockAtomTable.mk [("i32", 2), ("type", 1)] [(2, "i32"), (1, "type")] 3) ∧
    ∀ f, (i32_from_tagged_map (.map []) MockAtomTable.new_empty).1 ≠
      .error (.missingField f) := by
  constructor
  · rfl
  · intro f h
    rw [show (i32_from_tagged_map (.map []) MockAtomTable.new_empty).1 =
      .error (.other "key not found in map") from rfl] at h
    exact TaggedError.noConfusion (Except.error.inj h)

/-- Witness for the amended C2: concrete runs from the empty mock table
with expected type `"i32"` (the `type` atom gets id 1, `i32` id 2). -/
theorem validate_discriminator_behavior_witness :
    (∃ found, validate_type_discriminator (.map [(.atom 1, .atom 5)]) "i32"
        MockAtomTable.new_empty =
      (.error (.typeMismatch "i32" found),
       MockAtomTable.mk [("i32", 2), ("type", 1)] [(2, "i32"), (1, "type")] 3)) ∧
    validate_type_discriminator (.smallInt 0) "i32" MockAtomTable.new_empty =
      (.error (.wrongType "map" "other"),
       MockAtomTable.mk [("i32", 2), ("type", 1)] [(2, "i32"), (1, "type")] 3) ∧
    i32_from_tagged_map (.map []) MockAtomTable.new_empty =
      (.error (.other "key not found in map"),
       MockAtomTable.mk [("i32", 2), ("type", 1)] [(2, "i32"), (1, "type")] 3) := by
  refine ⟨?_, ?_, ?_⟩
  · exact validate_discriminator_behavior.1 MockAtomTable.new_empty "i32"
      [(.atom 1, .atom 5)] 1 (MockAtomTable.mk [("type", 1)] [(1, "type")] 2) 2
      (MockAtomTable.mk [("i32", 2), ("type", 1)] [(2, "i32"), (1, "type")] 3) 5
      (by rfl) (by rfl) (by simp [TermValue.beq]) (by decide)
  · exact validate_discriminator_behavior.2.1 MockAtomTable.new_empty "i32"
      (.smallInt 0) 1 (MockAtomTable.mk [("type", 1)] [(1, "type")] 2) 2
      (MockAtomTable.mk [("i32", 2), ("type", 1)] [(2, "i32"), (1, "type")] 3)
      (by rfl) (by rfl) (fun _ h' => nomatch h')
  · exact validate_discriminator_behavior.2.2.2 (.map []) MockAtomTable.new_empty
      (.other "key not found in map")
      (MockAtomTable.mk [("i32", 2), ("type", 1)] [(2, "i32"), (1, "type")] 3)
      (validate_discriminator_behavior.2.2.1 MockAtomTable.new_empty "i32" [] 1
        (MockAtomTable.mk [("type", 1)] [(1, "type")] 2) 2
        (MockAtomTable.mk [("i32", 2), ("type", 1)] [(2, "i32"), (1, "type")] 3)
        (by rfl) (by rfl) (by rfl))

/-- Claim C9: `extract_optional_field` returns `Ok(None)` both when the
field's key is absent from the map and when the key is present but mapped
to the `nil` atom; when the key maps to any other value it returns the
extractor's successful result wrapped in `Some`.  Required-field
extractors such as `extract_int_field` instead return an error (the
`Other("key not found in map")` from `get_map_value`) when the key is
absent. -/
theorem extract_optional_field_behavior :
    (∀ {R : Type} (extractor : TermValue → MockAtomTable →
        Except TaggedError R × MockAtomTable)
      (t : MockAtomTable) pairs field_name fa t1,
      get_type_atom field_name t = (.ok fa, t1) →
      (pairs.find? fun p => TermValue.beq p.1 (.atom fa)) = none →
      extract_optional_field (.map pairs) field_name t extractor = (.ok none, t1)) ∧
    (∀ {R : Type} (extractor : TermValue → MockAtomTable →
        Except TaggedError R × MockAtomTable)
      (t : MockAtomTable) pairs field_name fa t1 k j t2,
      get_type_atom field_name t = (.ok fa, t1) →
      (pairs.find? fun p => TermValue.beq p.1 (.atom fa)) = some (k, .atom j) →
      atoms_nil t1 = (.ok j, t2) →
      extract_optional_field (.map pairs) field_name t extractor = (.ok none, t2)) ∧
    (∀ {R : Type} (extractor : TermValue → MockAtomTable →
        Except TaggedError R × MockAtomTable)
      (t : MockAtomTable) pairs field_name fa t1 k v j t2 r t3,
      get_type_atom field_name t = (.ok fa, t1) →
      (pairs.find? fun p => TermValue.beq p.1 (.atom fa)) = some (k, v) →
      atoms_nil t1 = (.ok j, t2) →
      (∀ idx, v = .atom idx → idx ≠ j) →
      extractor v t2 = (.ok r, t3) →
      extract_optional_field (.map pairs) field_name t extractor =
        (.ok (some r), t3)) ∧
    (∀ (t : MockAtomTable) pairs field_name fa t1,
      get_type_atom field_name t = (.ok fa, t1) →
      (pairs.find? fun p => TermValue.beq p.1 (.atom fa)) = none →
      extract_int_field (.map pairs) field_name t =
        (.error (.other "key not found in map"), t1)) := by
  refine ⟨?_, ?_, ?_, ?_⟩
  · intro R extractor t pairs field_name fa t1 hga hfind
    unfold extract_optional_field get_map_value
    simp only [hga, hfind, Option.map_none']
  · intro R extractor t pairs field_name fa t1 k j t2 hga hfind hnil
    unfold extract_optional_field get_map_value
    simp only [hga, hfind, Option.map_some', hnil, if_pos]
  · intro R extractor t pairs field_name fa t1 k v j t2 r t3 hga hfind hnil hvne hext
    unfold extract_optional_field get_map_value
    simp only [hga, hfind, Option.map_some', hnil]
    cases v with
    | atom idx =>
      simp only [if_neg (hvne idx rfl), hext]
    | smallInt a => simp only [hext]
    | nil => simp only [hext]
    | pid a => simp only [hext]
    | port a => simp only [hext]
    | reference a => simp only [hext]
    | tuple xs => simp only [hext]
    | list h2 t9 => simp only [hext]
    | map ps => simp only [hext]
    | binary bs => simp only [hext]
    | function m f a => simp only [hext]
    | resource s p => simp only [hext]
    | float a => simp only [hext]
    | invalid => simp only [hext]
  · intro t pairs field_name fa t1 hga hfind
    unfold extract_int_field get_map_value
    simp only [hga, hfind, Option.map_none']

/-- Witness for C9: concrete runs from the empty mock table with field
`"f"` (atom id 1) and the `nil` atom getting id 2. -/
theorem extract_optional_field_behavior_witness :
    extract_optional_field (.map []) "f" MockAtomTable.new_empty
        (fun _ t => ((.ok (0 : Int)), t)) =
      (.ok none, MockAtomTable.mk [("f", 1)] [(1, "f")] 2) ∧
    extract_optional_field (.map [(.atom 1, .atom 2)]) "f" MockAtomTable.new_empty
        (fun _ t => ((.ok (0 : Int)), t)) =
      (.ok none, MockAtomTable.mk [("nil", 2), ("f", 1)] [(2, "nil"), (1, "f")] 3) ∧
    extract_optional_field (.map [(.atom 1, .smallInt 7)]) "f" MockAtomTable.new_empty
        (fun _ t => ((.ok (7 : Int)), t)) =
      (.ok (some 7), MockAtomTable.mk [("nil", 2), ("f", 1)] [(2, "nil"), (1, "f")] 3) ∧
    extract_int_field (.map []) "f" MockAtomTable.new_empty =
      (.error (.other "key not found in map"), MockAtomTable.mk [("f", 1)] [(1, "f")] 2) := by
  refine ⟨?_, ?_, ?_, ?_⟩
  · exact extract_optional_field_behavior.1 (fun _ t => ((.ok (0 : Int)), t))
      MockAtomTable.new_empty [] "f" 1 (MockAtomTable.mk [("f", 1)] [(1, "f")] 2)
      (by rfl) (by rfl)
  · exact extract_optional_field_behavior.2.1 (fun _ t => ((.ok (0 : Int)), t))
      MockAtomTable.new_empty [(.atom 1, .atom 2)] "f" 1
      (MockAtomTable.mk [("f", 1)] [(1, "f")] 2) (.atom 1) 2
      (MockAtomTable.mk [("nil", 2), ("f", 1)] [(2, "nil"), (1, "f")] 3)
      (by rfl) (by simp [TermValue.beq]) (by rfl)
  · exact extract_optional_field_behavior.2.2.1 (fun _ t => ((.ok (7 : Int)), t))
      MockAtomTable.new_empty [(.atom 1, .smallInt 7)] "f" 1
      (MockAtomTable.mk [("f", 1)] [(1, "f")] 2) (.atom 1) (.smallInt 7) 2
      (MockAtomTable.mk [("nil", 2), ("f", 1)] [(2, "nil"), (1, "f")] 3) 7
      (MockAtomTable.mk [("nil", 2), ("f", 1)] [(2, "nil"), (1, "f")] 3)
      (by rfl) (by simp [TermValue.beq]) (by rfl)
      (fun _ h' => nomatch h') (by rfl)
  · exact extract_optional_field_behavior.2.2.2
      MockAtomTable.new_empty [] "f" 1 (MockAtomTable.mk [("f", 1)] [(1, "f")] 2)
      (by rfl) (by rfl)
